import Mathlib

/-!
Shallow embedding of the core decision logic of the `pim` CLI (Go):
eligibility filtering, interactive multi-select parsing, scope resolution
for management-group-scoped roles, and duration parsing/clamping.

Go strings are modelled as `List Char`.  The repository only exercises the
matching logic on ASCII data, so Unicode-aware Go primitives
(`strings.ToLower`, `strings.TrimSpace`, `strings.EqualFold`) are modelled by
their ASCII restrictions (`Char.toLower`, the six ASCII space characters).
Go byte indices coincide with character indices on ASCII strings.
Machine-integer overflow of Go's `int` is not modelled (all quantities in the
claims are tiny); `strconv.Atoi`'s and `fmt.Sscanf`'s range errors are
therefore ignored.
-/

namespace Pim

/-- Go strings, modelled as lists of characters. -/
abbrev Str := List Char

/-- The ASCII white-space characters recognised by `unicode.IsSpace`
(`strings.TrimSpace` trims these; non-ASCII space is not modelled). -/
def isSpaceChar (c : Char) : Bool :=
  c = ' ' || c = '\t' || c = '\n' || c = '\x0b' || c = '\x0c' || c = '\r'

/-- `strings.TrimSpace`: drop white space from both ends. -/
def trimSpace (s : Str) : Str :=
  ((s.dropWhile isSpaceChar).reverse.dropWhile isSpaceChar).reverse

/-- `trimInput` (internal/cli/prompt.go): `strings.TrimSpace` followed by
`strings.TrimRight(s, "\r\n")` (the second step is a no-op after the first,
but is kept for fidelity). -/
def trimInput (s : Str) : Str :=
  let t := trimSpace s
  (t.reverse.dropWhile fun c => c = '\r' || c = '\n').reverse

/-- `strings.ToLower`, restricted to ASCII (`Char.toLower` lowers `A`-`Z`). -/
def strToLower (s : Str) : Str := s.map Char.toLower

/-- `strings.Contains(s, needle)`: `needle` occurs as a contiguous substring. -/
def containsStr (s needle : Str) : Bool :=
  match s with
  | [] => needle.isPrefixOf []
  | c :: rest => needle.isPrefixOf (c :: rest) || containsStr rest needle

/-- `strings.EqualFold`, restricted to ASCII case folding. -/
def equalFold (a b : Str) : Bool := strToLower a = strToLower b

/-- `strings.Split(s, sep)` for a single-character separator.  Like Go, the
result is never empty: splitting the empty string yields `[[]]`. -/
def splitOnChar (sep : Char) : Str → List Str
  | [] => [[]]
  | c :: rest =>
    match splitOnChar sep rest with
    | [] => [[c]]
    | h :: t => if c = sep then [] :: h :: t else (c :: h) :: t

/-- `strings.Index(s, marker)`: position of the first occurrence, `none`
when absent (Go returns -1). -/
def strIndexOf (s marker : Str) : Option Nat :=
  match s with
  | [] => if marker.isPrefixOf [] then some 0 else none
  | c :: rest =>
    if marker.isPrefixOf (c :: rest) then some 0
    else (strIndexOf rest marker).map (· + 1)

/-- Numeric value of a string of decimal digits. -/
def digitsToNat (ds : Str) : Nat :=
  ds.foldl (fun acc c => acc * 10 + (c.toNat - '0'.toNat)) 0

/-- `strconv.Atoi`: the whole string must be an optionally signed decimal
integer (64-bit range errors are not modelled). -/
def atoiOpt (s : Str) : Option Int :=
  match s with
  | [] => none
  | '-' :: rest =>
    if rest ≠ [] ∧ rest.all Char.isDigit then some (-(digitsToNat rest : Int)) else none
  | '+' :: rest =>
    if rest ≠ [] ∧ rest.all Char.isDigit then some (digitsToNat rest : Int) else none
  | _ => if s.all Char.isDigit then some (digitsToNat s : Int) else none

/-- Decimal rendering of a non-negative integer (`fmt.Sprintf("%d", ·)`
as used on the always-non-negative values below). -/
def intDec (i : Int) : Str :=
  if i < 0 then '-' :: Nat.toDigits 10 i.natAbs else Nat.toDigits 10 i.toNat

/-! ## pkg/azpim: scope utilities and data shapes -/

/-- The management-group scope marker (`pkg/azpim` scope utilities). -/
def mgMarker : Str := "/providers/Microsoft.Management/managementGroups/".toList

/-- The subscription scope marker. -/
def subMarker : Str := "/subscriptions/".toList

/-- `azpim.IsManagementGroupScope`: case-insensitive check that the scope
starts with the management-group marker. -/
def isManagementGroupScope (scope : Str) : Bool :=
  ("/providers/microsoft.management/managementgroups/".toList).isPrefixOf (strToLower scope)

/-- `azpim.ManagementGroupIDFromScope`: the path segment after the
management-group marker (empty string when the marker is absent). -/
def managementGroupIDFromScope (scope : Str) : Str :=
  if scope.length < mgMarker.length then []
  else if ¬ equalFold (scope.take mgMarker.length) mgMarker then []
  else
    match splitOnChar '/' (scope.drop mgMarker.length) with
    | [] => []
    | p :: _ => p

/-- `azpim.SubscriptionIDFromScope`: the path segment after
`/subscriptions/` (empty string when the marker is absent). -/
def subscriptionIDFromScope (scope : Str) : Str :=
  if scope.length < subMarker.length then []
  else if ¬ equalFold (scope.take subMarker.length) subMarker then []
  else
    match splitOnChar '/' (scope.drop subMarker.length) with
    | [] => []
    | p :: _ => p

/-- `azpim.ResourceGroupNameFromScope`: subscription id and resource-group
name extracted from a scope path (empty strings when absent). -/
def resourceGroupNameFromScope (scope : Str) : Str × Str :=
  if ¬ containsStr (strToLower scope) "/resourcegroups/".toList then ([], [])
  else
    let subID := subscriptionIDFromScope scope
    match strIndexOf scope "/resourceGroups/".toList with
    | none => (subID, [])
    | some idx =>
      let remainder := scope.drop (idx + ("/resourceGroups/".toList).length)
      match strIndexOf remainder ['/'] with
      | none => (subID, remainder)
      | some slash => (subID, remainder.take slash)

/-- `azpim.Role`: an eligible PIM role. -/
structure Role where
  scope : Str
  scopeDisplay : Str
  roleName : Str
  roleDefinitionID : Str
  eligibilityScheduleID : Str
deriving DecidableEq

/-- `azpim.Subscription`: a subscription under a management group. -/
structure Subscription where
  id : Str
  displayName : Str
deriving DecidableEq

/-- `azpim.ResourceGroup`: a resource group under a subscription. -/
structure ResourceGroup where
  subscriptionID : Str
  name : Str
  id : Str
deriving DecidableEq

/-- Modelled from the spec: `Subscription.Scope()` is declared outside the
provided sources (only its callers appear).  Per the spec's data model a
subscription's scope is its hierarchical path, which the sources render as
`/subscriptions/<id>` (see `SubscriptionIDFromScope` and the resource-group
id format in `resourceGroupsFromHints`). -/
def Subscription.scopePath (s : Subscription) : Str :=
  subMarker ++ s.id

/-- Modelled from the spec: `ResourceGroup.Scope()` is declared outside the
provided sources.  Per the spec's data model a resource group's `id` field is
its scope path (`/subscriptions/<id>/resourceGroups/<name>`), so the scope is
the id. -/
def ResourceGroup.scopePath (g : ResourceGroup) : Str :=
  g.id

/-- An activation target (`activationTarget` in internal/cli): the concrete
scope one activation request is submitted against. -/
structure ActivationTarget where
  scope : Str
  display : Str
deriving DecidableEq

/-- Errors surfaced by the collaborator client.  `multipleResourceGroups` is
the sentinel `errMultipleResourceGroups`; every other error is carried as its
message text (Go error values are compared by `errors.Is` only against the
sentinel, which is never wrapped). -/
inductive GoError where
  | message (msg : Str)
  | multipleResourceGroups
deriving DecidableEq

/-- The text of an error (`err.Error()`). -/
def GoError.text : GoError → Str
  | .message msg => msg
  | .multipleResourceGroups => "multiple resource groups match filters".toList

/-- `isAuthorizationError`: string-sniffing classification of
authorization-class failures. -/
def isAuthorizationError (e : GoError) : Bool :=
  let msg := strToLower e.text
  containsStr msg "authorizationfailed".toList ||
    containsStr msg "http 403".toList ||
    containsStr msg "status code 403".toList

/-- `azpim.MinMinutes`. -/
def MinMinutes : Int := 30

/-- `azpim.MaxMinutes`. -/
def MaxMinutes : Int := 480

/-! ## internal/cli: activation configuration and the filter engine -/

/-- `cli.ActivateConfig` (the variant used by the activation flow under
proof: justification, minutes, the five repeatable hint lists, and the
skip-confirmation flag). -/
structure ActivateConfig where
  justification : Str
  minutes : Int
  managementGroups : List Str
  subscriptions : List Str
  scopeContains : List Str
  roles : List Str
  resourceGroups : List Str
  yes : Bool
deriving DecidableEq

/-- `ActivateConfig.HasFilters`: some hint list is non-empty. -/
def ActivateConfig.hasFilters (c : ActivateConfig) : Bool :=
  c.managementGroups.length > 0 || c.subscriptions.length > 0 ||
    c.scopeContains.length > 0 || c.roles.length > 0 || c.resourceGroups.length > 0

/-- `ActivateConfig.HasTargetHints`: enough hints to narrow scope
automatically. -/
def ActivateConfig.hasTargetHints (c : ActivateConfig) : Bool :=
  c.subscriptions.length > 0 || c.scopeContains.length > 0 ||
    c.resourceGroups.length > 0

/-- `matchesManagementGroup` (internal/cli/filters.go). -/
def matchesManagementGroup (role : Role) (filters : List Str) : Bool :=
  if filters.length = 0 then true
  else
    let mGroupID := strToLower (managementGroupIDFromScope role.scope)
    if mGroupID = [] then false
    else
      let display := strToLower role.scopeDisplay
      filters.any fun f =>
        let needle := strToLower f
        (decide (mGroupID ≠ []) && containsStr mGroupID needle) || containsStr display needle

/-- `matchesSubscription` (internal/cli/filters.go): passthrough for
management-group-scoped roles. -/
def matchesSubscription (role : Role) (filters : List Str) : Bool :=
  if filters.length = 0 then true
  else if isManagementGroupScope role.scope then true
  else
    let subID := strToLower (subscriptionIDFromScope role.scope)
    if subID = [] then false
    else
      let display := strToLower role.scopeDisplay
      filters.any fun f =>
        let needle := strToLower f
        (decide (subID ≠ []) && containsStr subID needle) || containsStr display needle

/-- `matchesResourceGroup` (internal/cli/filters.go): passthrough for
management-group-scoped roles. -/
def matchesResourceGroup (role : Role) (filters : List Str) : Bool :=
  if filters.length = 0 then true
  else if isManagementGroupScope role.scope then true
  else
    let rg := (resourceGroupNameFromScope role.scope).2
    if rg = [] then false
    else
      let rgLower := strToLower rg
      filters.any fun f => containsStr rgLower (strToLower f)

/-- `matchesScopeContains` (internal/cli/filters.go). -/
def matchesScopeContains (role : Role) (filters : List Str) : Bool :=
  if filters.length = 0 then true
  else
    let scope := strToLower role.scope
    let display := strToLower role.scopeDisplay
    filters.any fun f =>
      let needle := strToLower f
      containsStr scope needle || containsStr display needle

/-- `matchesRoleName` (internal/cli/filters.go). -/
def matchesRoleName (role : Role) (filters : List Str) : Bool :=
  if filters.length = 0 then true
  else
    let name := strToLower role.roleName
    filters.any fun f => containsStr name (strToLower f)

/-- `filterEligibleRoles` (internal/cli/filters.go): identity when no hints
are set; otherwise keep exactly the roles passing all five category checks
(the Go loop of guarded `continue`s is an order-preserving filter). -/
def filterEligibleRoles (roles : List Role) (cfg : ActivateConfig) : List Role :=
  if ¬ cfg.hasFilters then roles
  else
    roles.filter fun role =>
      matchesManagementGroup role cfg.managementGroups &&
        matchesSubscription role cfg.subscriptions &&
        matchesResourceGroup role cfg.resourceGroups &&
        matchesScopeContains role cfg.scopeContains &&
        matchesRoleName role cfg.roles

/-! ## internal/cli/prompt.go: selection parsing and the multi-select loop -/

/-- `viewItem` (internal/cli/prompt.go): an item paired with its index in
the original, unfiltered collection. -/
structure ViewItem (T : Type) where
  idx : Nat
  value : T
deriving DecidableEq

/-- The initial view built by `PromptMultiSelection`: every item paired with
its original position. -/
def originalView {T : Type} (items : List T) : List (ViewItem T) :=
  items.enum.map fun p => ⟨p.1, p.2⟩

/-- The lowercase search keys precomputed by `PromptMultiSelection` from the
original item collection. -/
def initKeysLower {T : Type} (keyFunc : T → Str) (items : List T) : List Str :=
  items.map fun item => strToLower (keyFunc item)

/-- Message for a blank selection token. -/
def emptySelectionMsg : Str := "selection cannot be empty".toList

/-- Message for an index outside the current view. -/
def rangeMsg (limit : Int) : Str :=
  "selection must be between 1 and ".toList ++ intDec limit

/-- Message when no selections survive. -/
def noSelectionsMsg : Str := "no selections provided".toList

/-- The token loop of `tryParseSelections`: left-to-right scan, blank or
out-of-range tokens are hard failures, a token that fails integer parsing
makes the whole input fall through to search, duplicates (tracked by `seen`,
kept appended in lock-step with `selections`) are skipped. -/
def parseSelectionLoop (limit : Int) :
    List Str → List Int → List Int → List Int × Bool × Option Str
  | [], selections, _ =>
    if selections = [] then ([], true, some noSelectionsMsg)
    else (selections, true, none)
  | part :: rest, selections, seen =>
    let value := trimSpace part
    if value = [] then ([], true, some emptySelectionMsg)
    else
      match atoiOpt value with
      | none => ([], false, none)
      | some num =>
        if num < 1 || limit < num then ([], true, some (rangeMsg limit))
        else if num ∈ seen then parseSelectionLoop limit rest selections seen
        else parseSelectionLoop limit rest (selections ++ [num]) (seen ++ [num])

/-- `tryParseSelections` (internal/cli/prompt.go): returns `(selections, ok,
err)`; `ok = false` means the input is not a pure index list and falls
through to search. -/
def tryParseSelections (input : Str) (limit : Int) : List Int × Bool × Option Str :=
  if trimSpace input = [] then ([], false, none)
  else
    let parts := splitOnChar ',' input
    if parts = [] then ([], false, none)
    else parseSelectionLoop limit parts [] []

/-- First-occurrence de-duplication with an explicit accumulator (mirrors
the `seen` set of `tryParseSelections`); used to state what the selection
parse returns. -/
def dedupFirstAux : List Int → List Int → List Int
  | [], acc => acc
  | x :: rest, acc =>
    if x ∈ acc then dedupFirstAux rest acc else dedupFirstAux rest (acc ++ [x])

/-- Duplicates collapsed to their first occurrence, insertion order kept. -/
def dedupFirst (l : List Int) : List Int := dedupFirstAux l []

/-- The accumulator loop of `filterViewBySubstring`: count every key
containing the needle, but keep only the first `limit` matching items. -/
def filterViewLoop {T : Type} (needle : Str) (limit : Nat) :
    List (ViewItem T × Str) → List (ViewItem T) → Nat → List (ViewItem T) × Nat
  | [], filtered, total => (filtered, total)
  | (item, key) :: rest, filtered, total =>
    if containsStr key needle then
      if filtered.length < limit then
        filterViewLoop needle limit rest (filtered ++ [item]) (total + 1)
      else filterViewLoop needle limit rest filtered (total + 1)
    else filterViewLoop needle limit rest filtered total

/-- `filterViewBySubstring` (internal/cli/prompt.go): substring filter over
the paired items and lowercase keys (the Go loop indexes `all[i]` while
ranging over `lowerKeys`; the caller always passes lists of equal length,
which the zip models). -/
def filterViewBySubstring {T : Type} (all : List (ViewItem T)) (lowerKeys : List Str)
    (needle : Str) (limit : Nat) : List (ViewItem T) × Nat :=
  if needle = [] then ([], 0)
  else filterViewLoop needle limit (all.zip lowerKeys) [] 0

/-- The outcome of one turn of the `PromptMultiSelection` loop.  Interactive
fuzzy ranking (the external `fuzzy` library, reached only when substring
search finds nothing) is collapsed into the `fuzzy` outcome. -/
inductive PromptStep (T : Type) where
  | cancelled
  | selected (items : List T)
  | redisplay
  | showAll
  | rejected (msg : Str)
  | searched (view : List (ViewItem T)) (total : Nat)
  | fuzzy
deriving DecidableEq

/-- One turn of the `PromptMultiSelection` loop (internal/cli/prompt.go):
trim the raw line, handle quit/all, try the selection parse, then substring
search against the original view's keys, then fuzzy ranking.
`redisplay`/`rejected`/`fuzzy`-no-match leave the current view unchanged;
`showAll` resets it to the original; `searched` replaces it. -/
def promptStep {T : Type} (original current : List (ViewItem T)) (keysLower : List Str)
    (raw : Str) : PromptStep T :=
  let input := trimInput raw
  if input = [] then .redisplay
  else
    let lower := strToLower input
    if lower = "q".toList || lower = "quit".toList then .cancelled
    else if lower = "all".toList || lower = "*".toList then .showAll
    else
      match tryParseSelections input (current.length : Int) with
      | (selections, true, none) =>
        .selected (selections.filterMap fun sel => (current.get? (sel - 1).toNat).map ViewItem.value)
      | (_, true, some msg) => .rejected msg
      | (_, false, _) =>
        let r := filterViewBySubstring original keysLower lower 20
        if r.2 > 0 then .searched r.1 r.2 else .fuzzy

/-! ## internal/cli: scope resolution for management-group-scoped roles -/

/-- The collaborator reads used by scope resolution (`azpim.Client`), as an
oracle: listing a management group's child subscriptions and a
subscription's resource groups, each able to fail. -/
structure Env where
  listManagementGroupSubscriptions : Str → Except GoError (List Subscription)
  listSubscriptionResourceGroups : Str → Except GoError (List ResourceGroup)

/-- The per-subscription match predicate of `findSubscriptionsByTokens`:
some non-empty hint is contained (case-insensitively) in the id or the
display name. -/
def subscriptionMatchesToken (sub : Subscription) (tokens : List Str) : Bool :=
  tokens.any fun token =>
    let needle := strToLower token
    decide (needle ≠ []) &&
      (containsStr (strToLower sub.id) needle || containsStr (strToLower sub.displayName) needle)

/-- `findSubscriptionsByTokens` (part_004): keep the subscriptions matching
some hint (the Go append-and-break loop is an order-preserving filter). -/
def findSubscriptionsByTokens (subs : List Subscription) (tokens : List Str) :
    List Subscription :=
  if tokens = [] then []
  else subs.filter (subscriptionMatchesToken · tokens)

/-- The per-resource-group match predicate of `findResourceGroupsByTokens`:
some non-empty hint is contained (case-insensitively) in the name. -/
def resourceGroupMatchesToken (rg : ResourceGroup) (tokens : List Str) : Bool :=
  tokens.any fun token =>
    let needle := strToLower token
    decide (needle ≠ []) && containsStr (strToLower rg.name) needle

/-- `findResourceGroupsByTokens` (part_004). -/
def findResourceGroupsByTokens (groups : List ResourceGroup) (tokens : List Str) :
    List ResourceGroup :=
  if tokens = [] then []
  else groups.filter (resourceGroupMatchesToken · tokens)

/-- Result of an automatic (headless) scope-selection attempt, mirroring the
Go `(activationTarget, bool, error)` triple: `selected` is `(t, true, nil)`,
`noSelection` is `(zero, false, nil)`, `failed` is `(zero, false, err)`. -/
inductive AutoSelectResult where
  | selected (t : ActivationTarget)
  | noSelection
  | failed (e : GoError)
deriving DecidableEq

/-- `autoSelectResourceGroup` (part_004): list the subscription's resource
groups (authorization failure degrades to the whole subscription), then
auto-select only on a unique hint match; several matches raise the
`errMultipleResourceGroups` sentinel. -/
def autoSelectResourceGroup (env : Env) (subscription : Subscription)
    (hints : List Str) : AutoSelectResult :=
  if hints = [] then .noSelection
  else
    match env.listSubscriptionResourceGroups subscription.id with
    | .error e =>
      if isAuthorizationError e then
        .selected ⟨subscription.scopePath, subscription.displayName⟩
      else
        .failed (.message ("list resource groups for ".toList ++
          subscription.displayName ++ ": ".toList ++ e.text))
    | .ok groups =>
      match findResourceGroupsByTokens groups hints with
      | [] => .noSelection
      | chosen :: restMatches =>
        if restMatches ≠ [] then .failed .multipleResourceGroups
        else .selected ⟨chosen.scopePath,
          subscription.displayName ++ ['/'] ++ chosen.name⟩

/-- `autoSelectManagementGroupScope` (part_004): auto-select requires a
unique subscription hit; with resource-group hints it then drills into that
subscription (`errors.Is` against the never-wrapped sentinel is equality). -/
def autoSelectManagementGroupScope (env : Env) (role : Role)
    (subs : List Subscription) (cfg : ActivateConfig) : AutoSelectResult :=
  if cfg.subscriptions = [] then .noSelection
  else
    match findSubscriptionsByTokens subs cfg.subscriptions with
    | [] => .noSelection
    | chosen :: restMatches =>
      if restMatches ≠ [] then .noSelection
      else if cfg.resourceGroups ≠ [] then
        match autoSelectResourceGroup env chosen cfg.resourceGroups with
        | .failed e =>
          if e = .multipleResourceGroups then .noSelection else .failed e
        | .selected t => .selected t
        | .noSelection => .noSelection
      else .selected ⟨chosen.scopePath, chosen.displayName⟩

/-- Outcome of `determineActivationTargets`: `resolved` means targets were
returned without reaching any interactive prompt; `interactive` means control
passed to a prompting flow (`promptResourceGroupsForHints` or
`promptManagementGroupTargets`, both of which read from the terminal and are
collapsed here); `failed` propagates a non-authorization error. -/
inductive ResolveResult where
  | resolved (targets : List ActivationTarget)
  | interactive
  | failed (e : GoError)
deriving DecidableEq

/-- `determineActivationTargets` (part_004): non-group roles resolve to
themselves; group roles list child subscriptions (authorization failure or
an empty/extractionless group degrade to the whole group), then try the
headless auto-selection before falling back to the interactive flows. -/
def determineActivationTargets (env : Env) (role : Role) (cfg : ActivateConfig) :
    ResolveResult :=
  let defaultTarget : ActivationTarget := ⟨role.scope, role.scopeDisplay⟩
  if ¬ isManagementGroupScope role.scope then .resolved [defaultTarget]
  else
    let mgID := managementGroupIDFromScope role.scope
    if mgID = [] then .resolved [defaultTarget]
    else
      match env.listManagementGroupSubscriptions mgID with
      | .error e =>
        if isAuthorizationError e then .resolved [defaultTarget]
        else
          .failed (.message ("list subscriptions for ".toList ++
            role.scopeDisplay ++ ": ".toList ++ e.text))
      | .ok subs =>
        if subs = [] then .resolved [defaultTarget]
        else if cfg.hasTargetHints then
          if cfg.subscriptions.length > 0 && cfg.resourceGroups.length > 0 then
            .interactive
          else
            match autoSelectManagementGroupScope env role subs cfg with
            | .failed e => .failed e
            | .selected t => .resolved [t]
            | .noSelection => .interactive
        else .interactive

/-! ## internal/cli (part_005): the duration parser -/

/-- `fmt.Sscanf(s, "%d", &val)`: skip leading white space, then an optionally
signed run of decimal digits; trailing characters are ignored (`Sscanf` does
not require the input to be fully consumed). `none` models a scan error. -/
def sscanfInt (s : Str) : Option Int :=
  match s.dropWhile isSpaceChar with
  | [] => none
  | c :: rest =>
    if c = '-' then
      let ds := rest.takeWhile Char.isDigit
      if ds = [] then none else some (-(digitsToNat ds : Int))
    else if c = '+' then
      let ds := rest.takeWhile Char.isDigit
      if ds = [] then none else some (digitsToNat ds : Int)
    else
      let ds := (c :: rest).takeWhile Char.isDigit
      if ds = [] then none else some (digitsToNat ds : Int)

/-- `parseAsNumber` (part_005): the scanned integer, or 0 on a scan error. -/
def parseAsNumber (s : Str) : Int :=
  (sscanfInt s).getD 0

/-- `fmt.Sscanf(s, "%f", &val)` on a buffer of digits and dots (the only
characters the duration scanner accumulates): the leading decimal number,
as an exact pair (numerator, number of fraction digits), so the value is
`numer / 10 ^ scale`.  Scanning stops at a second dot; no digits at all is a
scan error.  (Go parses into a binary `float64`; on every value reachable in
the claims the decimal is exactly representable, so the models agree.) -/
def sscanfDec (s : Str) : Option (Nat × Nat) :=
  let intDigits := s.takeWhile Char.isDigit
  let rest := s.drop intDigits.length
  match rest with
  | '.' :: rest2 =>
    let fracDigits := rest2.takeWhile Char.isDigit
    if intDigits = [] && fracDigits = [] then none
    else some (digitsToNat (intDigits ++ fracDigits), fracDigits.length)
  | _ => if intDigits = [] then none else some (digitsToNat intDigits, 0)

/-- The left-to-right scan of `parseDuration` (part_005): accumulate a
numeric buffer until a unit letter converts it (`int(val*60)` for hours,
`int(val)` for minutes; Go's float-to-int truncation on these non-negative
values is the floor, i.e. exact division of the decimal pair); spaces are
skipped; anything else, a unit with an empty buffer, or a trailing buffer is
a failure, as is a non-positive total. -/
def scanDurationLoop : Str → Nat → Str → Except Str Int
  | [], total, current =>
    if current ≠ [] then .error "duration must end with h or m".toList
    else if total = 0 then .error "duration must be positive".toList
    else .ok (total : Int)
  | c :: rest, total, current =>
    if c.isDigit || c = '.' then scanDurationLoop rest total (current ++ [c])
    else if c = 'h' || c = 'H' then
      if current = [] then .error "missing number before h".toList
      else
        match sscanfDec current with
        | none => .error "invalid hours value".toList
        | some nd => scanDurationLoop rest (total + nd.1 * 60 / 10 ^ nd.2) []
    else if c = 'm' || c = 'M' then
      if current = [] then .error "missing number before m".toList
      else
        match sscanfDec current with
        | none => .error "invalid minutes value".toList
        | some nd => scanDurationLoop rest (total + nd.1 / 10 ^ nd.2) []
    else if c = ' ' then scanDurationLoop rest total current
    else .error "invalid character in duration".toList

/-- `parseDuration` (part_005): empty input defaults to 60 minutes; a
unit-less input goes through `parseAsNumber` and counts as whole hours when
positive; otherwise the compound scan runs. -/
def parseDuration (input : Str) : Except Str Int :=
  let s := trimSpace input
  if s = [] then .ok 60
  else
    let hasUnit := (strToLower s).any fun c => c = 'h' || c = 'm'
    if ¬ hasUnit then
      let val := parseAsNumber s
      if val > 0 then .ok (val * 60) else .error "invalid duration format".toList
    else scanDurationLoop s 0 []

/-! ## pkg/azpim (part_006): clamping and request construction -/

/-- `clampMinutes` (part_006): clamp into the valid window, then round to
the nearest 30-minute step (in the rounding branch the dividend `minutes+15`
is at least 45, so Go's truncating integer division agrees with Lean's
floor division). -/
def clampMinutes (minutes : Int) : Int :=
  if minutes < MinMinutes then MinMinutes
  else if minutes > MaxMinutes then MaxMinutes
  else ((minutes + 15) / 30) * 30

/-- `formatDuration` (part_006): ISO-8601 rendering of a minute count (the
arguments reaching it are positive, where Go's `/` and `%` agree with
Lean's). -/
def formatDuration (minutes : Int) : Str :=
  let hours := minutes / 60
  let mins := minutes % 60
  if mins = 0 then "PT".toList ++ intDec hours ++ ['H']
  else if hours = 0 then "PT".toList ++ intDec mins ++ ['M']
  else "PT".toList ++ intDec hours ++ ['H'] ++ intDec mins ++ ['M']

/-- The expiration duration `ActivateRole` (part_006) embeds in every
submitted schedule request: the caller-supplied minutes are clamped before
the request body is built. -/
def activateRoleRequestDuration (minutes : Int) : Str :=
  formatDuration (clampMinutes minutes)

/-- Decidable equality for collaborator results. -/
instance {ε α : Type} [DecidableEq ε] [DecidableEq α] : DecidableEq (Except ε α) :=
  fun x y =>
    match x, y with
    | .ok a, .ok b => if h : a = b then isTrue (by rw [h]) else isFalse (by simp [h])
    | .error a, .error b => if h : a = b then isTrue (by rw [h]) else isFalse (by simp [h])
    | .ok _, .error _ => isFalse (by simp)
    | .error _, .ok _ => isFalse (by simp)

/-- Digit characters; used to state the claim-level notion of a plain
decimal integer. -/
def digitChars : Str := "0123456789".toList

/-! ## Theorems -/

/-- C4: with all five hint lists empty, filtering is the identity. -/
theorem C4_empty_filter_identity (roles : List Role) (cfg : ActivateConfig)
    (h1 : cfg.managementGroups = []) (h2 : cfg.subscriptions = [])
    (h3 : cfg.scopeContains = []) (h4 : cfg.roles = [])
    (h5 : cfg.resourceGroups = []) :
    filterEligibleRoles roles cfg = roles := by
  simp [filterEligibleRoles, ActivateConfig.hasFilters, h1, h2, h3, h4, h5]

/-- Witness for C4 at a concrete role list and an all-empty configuration. -/
theorem C4_empty_filter_identity_witness :
    filterEligibleRoles
      [⟨"/subscriptions/abcd".toList, "Hub".toList, "Owner".toList, [], []⟩]
      ⟨[], 60, [], [], [], [], [], false⟩
      = [⟨"/subscriptions/abcd".toList, "Hub".toList, "Owner".toList, [], []⟩] :=
  C4_empty_filter_identity _ _ rfl rfl rfl rfl rfl

/-- C3: a management-group-scoped role passes the subscription and the
resource-group category checks whatever the hints are, so inside
`filterEligibleRoles` it can only be excluded by the management-group,
scope-contains, or role-name categories. -/
theorem C3_management_group_passthrough (role : Role) (cfg : ActivateConfig)
    (h : isManagementGroupScope role.scope = true) :
    matchesSubscription role cfg.subscriptions = true ∧
    matchesResourceGroup role cfg.resourceGroups = true ∧
    (matchesManagementGroup role cfg.managementGroups &&
        matchesSubscription role cfg.subscriptions &&
        matchesResourceGroup role cfg.resourceGroups &&
        matchesScopeContains role cfg.scopeContains &&
        matchesRoleName role cfg.roles) =
      (matchesManagementGroup role cfg.managementGroups &&
        matchesScopeContains role cfg.scopeContains &&
        matchesRoleName role cfg.roles) := by
  have hsub : matchesSubscription role cfg.subscriptions = true := by
    unfold matchesSubscription
    split
    · rfl
    · simp [h]
  have hrg : matchesResourceGroup role cfg.resourceGroups = true := by
    unfold matchesResourceGroup
    split
    · rfl
    · simp [h]
  refine ⟨hsub, hrg, ?_⟩
  rw [hsub, hrg]
  simp [Bool.and_assoc, Bool.and_comm, Bool.and_left_comm]

/-- Witness for C3 at a concrete group-scoped role and non-empty hint
lists. -/
theorem C3_management_group_passthrough_witness :
    matchesSubscription
      ⟨"/providers/Microsoft.Management/managementGroups/root".toList,
        "Root".toList, "Owner".toList, [], []⟩
      ["prod".toList] = true ∧
    matchesResourceGroup
      ⟨"/providers/Microsoft.Management/managementGroups/root".toList,
        "Root".toList, "Owner".toList, [], []⟩
      ["core-rg".toList] = true :=
  ⟨(C3_management_group_passthrough _
      ⟨[], 60, [], ["prod".toList], [], [], ["core-rg".toList], false⟩
      (by decide)).1,
   (C3_management_group_passthrough _
      ⟨[], 60, [], ["prod".toList], [], [], ["core-rg".toList], false⟩
      (by decide)).2.1⟩

/-- C9: the seven documented duration-parser behaviours: empty input
defaults to 60; compound, uppercase and minute-only forms; a bare unit and a
negative duration fail. -/
theorem C9_duration_examples :
    parseDuration "".toList = .ok 60 ∧
    parseDuration "1h30m".toList = .ok 90 ∧
    parseDuration "2H".toList = .ok 120 ∧
    parseDuration "90m".toList = .ok 90 ∧
    parseDuration "3".toList = .ok 180 ∧
    parseDuration "h".toList = .error "missing number before h".toList ∧
    parseDuration "-1h".toList = .error "invalid character in duration".toList := by
  decide

/-- C10: `clampMinutes` always lands on a 30-minute step inside
`[MinMinutes, MaxMinutes]`: inputs below 30 become 30, above 480 become 480,
and in-range inputs move by at most 15 minutes (ties at +15 round up, which
the bounds `m-14 ≤ r ≤ m+15` pin down together with divisibility); the
duration `ActivateRole` embeds in every submitted request is rendered from
exactly this clamped value. -/
theorem C10_clamp_minutes (m : Int) :
    (30 ≤ clampMinutes m ∧ clampMinutes m ≤ 480 ∧ 30 ∣ clampMinutes m) ∧
    (m < 30 → clampMinutes m = 30) ∧
    (480 < m → clampMinutes m = 480) ∧
    (30 ≤ m → m ≤ 480 → m - 14 ≤ clampMinutes m ∧ clampMinutes m ≤ m + 15) ∧
    (∃ k, 30 ≤ k ∧ k ≤ 480 ∧ 30 ∣ k ∧
      activateRoleRequestDuration m = formatDuration k) := by
  have hrange : 30 ≤ clampMinutes m ∧ clampMinutes m ≤ 480 ∧ 30 ∣ clampMinutes m := by
    simp only [clampMinutes, MinMinutes, MaxMinutes]
    split
    · exact ⟨by omega, by omega, by omega⟩
    · split
      · exact ⟨by omega, by omega, by omega⟩
      · exact ⟨by omega, by omega, by omega⟩
  refine ⟨hrange, ?_, ?_, ?_,
    ⟨clampMinutes m, hrange.1, hrange.2.1, hrange.2.2, rfl⟩⟩ <;>
    simp only [clampMinutes, MinMinutes, MaxMinutes] <;>
    split <;> try split
  all_goals omega

/-- Witness for C10: the implications discharged at concrete inputs from
each region. -/
theorem C10_clamp_minutes_witness :
    clampMinutes (-5) = 30 ∧ clampMinutes 999 = 480 ∧
    ((44 : Int) - 14 ≤ clampMinutes 44 ∧ clampMinutes 44 ≤ 44 + 15) :=
  ⟨(C10_clamp_minutes (-5)).2.1 (by decide),
   (C10_clamp_minutes 999).2.2.1 (by decide),
   (C10_clamp_minutes 44).2.2.2.1 (by decide) (by decide)⟩

/-- C1: for a group-scoped role whose child-subscription listing succeeds
with a non-empty list, subscription hints (and no resource-group hints)
matching exactly one child subscription resolve headlessly to that
subscription's scope: one target, no interactive prompt reached. -/
theorem C1_unique_subscription_hint_autoselect (env : Env) (role : Role)
    (cfg : ActivateConfig) (subs : List Subscription) (A : Subscription)
    (hscope : isManagementGroupScope role.scope = true)
    (hmg : managementGroupIDFromScope role.scope ≠ [])
    (hlist : env.listManagementGroupSubscriptions (managementGroupIDFromScope role.scope)
      = .ok subs)
    (hsubs : subs ≠ [])
    (hhints : cfg.subscriptions ≠ [])
    (hnorg : cfg.resourceGroups = [])
    (hmatch : subs.filter (subscriptionMatchesToken · cfg.subscriptions) = [A]) :
    determineActivationTargets env role cfg
      = .resolved [⟨A.scopePath, A.displayName⟩] := by
  have hlen : cfg.subscriptions.length > 0 := by
    cases h : cfg.subscriptions with
    | nil => exact absurd h hhints
    | cons a l => simp [h]
  have hht : cfg.hasTargetHints = true := by
    simp [ActivateConfig.hasTargetHints, hlen]
  have hfind : findSubscriptionsByTokens subs cfg.subscriptions = [A] := by
    rw [findSubscriptionsByTokens, if_neg hhints, hmatch]
  simp only [determineActivationTargets, hscope, Bool.not_true, hlist, hht]
  rw [if_neg (by simp), if_neg hmg, if_neg hsubs]
  simp [hnorg, autoSelectManagementGroupScope, hfind, hhints]

/-- Witness subscriptions for the resolver claims. -/
def subPlatform : Subscription := ⟨"aaaa-1111".toList, "Platform Dev".toList⟩

/-- Second witness subscription. -/
def subData : Subscription := ⟨"bbbb-2222".toList, "Data Prod".toList⟩

/-- Witness group-scoped role for the resolver claims. -/
def roleRootOwner : Role :=
  ⟨"/providers/Microsoft.Management/managementGroups/root".toList,
    "Root Group".toList, "Owner".toList, [], []⟩

/-- Witness configuration hinting at exactly one subscription. -/
def cfgPlatformHint : ActivateConfig :=
  ⟨"fix".toList, 60, [], ["platform".toList], [], [], [], false⟩

/-- Witness environment whose subscription listing succeeds. -/
def envTwoSubs : Env :=
  ⟨fun _ => .ok [subPlatform, subData], fun _ => .ok []⟩

/-- Witness for C1: the hint `platform` matches only `subPlatform`, and
resolution returns exactly its subscription scope without prompting. -/
theorem C1_unique_subscription_hint_autoselect_witness :
    determineActivationTargets envTwoSubs roleRootOwner cfgPlatformHint
      = .resolved [⟨"/subscriptions/aaaa-1111".toList, "Platform Dev".toList⟩] :=
  C1_unique_subscription_hint_autoselect envTwoSubs roleRootOwner cfgPlatformHint
    [subPlatform, subData] subPlatform
    (by decide) (by decide) rfl (by decide) (by decide) rfl (by decide)

/-- C2: when listing a group's child subscriptions fails with an
authorization-class error, resolution still succeeds and returns exactly the
role's own whole-group target (also covering the degenerate case where no
group id can be extracted, in which case the listing is never attempted). -/
theorem C2_authorization_failure_degrades (env : Env) (role : Role)
    (cfg : ActivateConfig) (e : GoError)
    (hscope : isManagementGroupScope role.scope = true)
    (hlist : env.listManagementGroupSubscriptions (managementGroupIDFromScope role.scope)
      = .error e)
    (hauth : isAuthorizationError e = true) :
    determineActivationTargets env role cfg
      = .resolved [⟨role.scope, role.scopeDisplay⟩] := by
  simp only [determineActivationTargets, hscope, Bool.not_true]
  rw [if_neg (by simp)]
  by_cases hmg : managementGroupIDFromScope role.scope = []
  · rw [if_pos hmg]
  · rw [if_neg hmg, hlist]
    simp [hauth]

/-- Witness environment whose subscription listing is denied. -/
def envDenied : Env :=
  ⟨fun _ => .error (.message "RBAC check failed: AuthorizationFailed".toList),
    fun _ => .ok []⟩

/-- Witness for C2: an `AuthorizationFailed` listing error degrades to the
whole-group target. -/
theorem C2_authorization_failure_degrades_witness :
    determineActivationTargets envDenied roleRootOwner cfgPlatformHint
      = .resolved
        [⟨"/providers/Microsoft.Management/managementGroups/root".toList,
          "Root Group".toList⟩] :=
  C2_authorization_failure_degrades envDenied roleRootOwner cfgPlatformHint
    (.message "RBAC check failed: AuthorizationFailed".toList)
    (by decide) rfl (by decide)

/-- Dropping while a predicate fails everywhere is the identity. -/
theorem dropWhile_eq_self_of (p : Char → Bool) (s : Str)
    (h : ∀ c ∈ s, p c = false) : s.dropWhile p = s := by
  cases s with
  | nil => rfl
  | cons c rest =>
    simp [List.dropWhile_cons, h c (List.mem_cons_self c rest)]

/-- Taking while a predicate holds everywhere is the identity. -/
theorem takeWhile_eq_self_of (p : Char → Bool) (s : Str)
    (h : ∀ c ∈ s, p c = true) : s.takeWhile p = s := by
  induction s with
  | nil => rfl
  | cons c rest ih =>
    simp only [List.takeWhile_cons, h c (List.mem_cons_self c rest), if_true]
    rw [ih fun d hd => h d (List.mem_cons_of_mem c hd)]

/-- Trimming a string with no white space is the identity. -/
theorem trimSpace_eq_self_of (s : Str) (h : ∀ c ∈ s, isSpaceChar c = false) :
    trimSpace s = s := by
  unfold trimSpace
  rw [dropWhile_eq_self_of _ _ h, dropWhile_eq_self_of, List.reverse_reverse]
  intro c hc
  exact h c (by simpa using hc)

/-- Trimming an all-white-space string yields the empty string. -/
theorem trimSpace_eq_nil_of (s : Str) (h : ∀ c ∈ s, isSpaceChar c = true) :
    trimSpace s = [] := by
  unfold trimSpace
  rw [List.dropWhile_eq_nil_iff.mpr h]
  rfl

/-- An empty trim means every character was white space. -/
theorem all_space_of_trimSpace_eq_nil (s : Str) (h : trimSpace s = []) :
    ∀ c ∈ s, isSpaceChar c = true := by
  unfold trimSpace at h
  rw [List.reverse_eq_nil_iff, List.dropWhile_eq_nil_iff] at h
  intro c hc
  rw [← List.takeWhile_append_dropWhile (p := isSpaceChar) (l := s)] at hc
  rcases List.mem_append.mp hc with h1 | h1
  · exact List.mem_takeWhile_imp h1
  · exact h c (List.mem_reverse.mpr h1)

/-- A string containing a non-space character does not trim to empty. -/
theorem trimSpace_ne_nil_of_mem (s : Str) (c : Char) (hc : c ∈ s)
    (hns : isSpaceChar c = false) : trimSpace s ≠ [] := by
  intro h
  have := all_space_of_trimSpace_eq_nil s h c hc
  rw [hns] at this
  exact Bool.false_ne_true this

/-- Splitting never yields an empty list of pieces. -/
theorem splitOnChar_ne_nil (sep : Char) (s : Str) : splitOnChar sep s ≠ [] := by
  cases s with
  | nil => simp [splitOnChar]
  | cons c rest =>
    cases hs : splitOnChar sep rest with
    | nil => simp [splitOnChar, hs]
    | cons h t =>
      simp only [splitOnChar, hs]
      split <;> simp

/-- Every character of a piece comes from the split string. -/
theorem splitOnChar_chars (sep : Char) (s : Str) :
    ∀ p ∈ splitOnChar sep s, ∀ c ∈ p, c ∈ s := by
  induction s with
  | nil =>
    intro p hp c hc
    simp [splitOnChar] at hp
    subst hp
    simp at hc
  | cons d rest ih =>
    intro p hp c hc
    cases hsplit : splitOnChar sep rest with
    | nil => exact absurd hsplit (splitOnChar_ne_nil sep rest)
    | cons h t =>
      simp only [splitOnChar, hsplit] at hp
      split at hp
      · rcases List.mem_cons.mp hp with h1 | h1
        · subst h1; simp at hc
        · have := ih p (by rw [hsplit]; exact h1) c hc
          exact List.mem_cons_of_mem d this
      · rcases List.mem_cons.mp hp with h1 | h1
        · subst h1
          rcases List.mem_cons.mp hc with h2 | h2
          · rw [h2]; exact List.mem_cons_self d rest
          · have := ih h (by rw [hsplit]; exact List.mem_cons_self h t) c h2
            exact List.mem_cons_of_mem d this
        · have := ih p (by rw [hsplit]; exact List.mem_cons_of_mem h h1) c hc
          exact List.mem_cons_of_mem d this

/-- A non-empty accumulator keeps first-occurrence de-duplication
non-empty. -/
theorem dedupFirstAux_acc_ne_nil (l acc : List Int) (h : acc ≠ []) :
    dedupFirstAux l acc ≠ [] := by
  induction l generalizing acc with
  | nil => exact h
  | cons x rest ih =>
    simp only [dedupFirstAux]
    split
    · exact ih acc h
    · exact ih _ (by simp)

/-- De-duplicating a non-empty list is non-empty. -/
theorem dedupFirst_cons_ne_nil (x : Int) (l : List Int) :
    dedupFirst (x :: l) ≠ [] := by
  unfold dedupFirst dedupFirstAux
  rw [if_neg (List.not_mem_nil x)]
  exact dedupFirstAux_acc_ne_nil l [x] (by simp)

/-- The selection-token loop on all-valid tokens: with `seen` and
`selections` both equal to `acc`, the loop returns the first-occurrence
de-duplication of the parsed values (or the `no selections` failure when
that is empty). -/
theorem parseSelectionLoop_all_valid (limit : Int) (parts : List Str)
    (acc : List Int)
    (h : ∀ p ∈ parts, ∃ n, atoiOpt (trimSpace p) = some n ∧ 1 ≤ n ∧ n ≤ limit) :
    parseSelectionLoop limit parts acc acc =
      if dedupFirstAux (parts.map fun p => (atoiOpt (trimSpace p)).getD 0) acc = [] then
        ([], true, some noSelectionsMsg)
      else
        (dedupFirstAux (parts.map fun p => (atoiOpt (trimSpace p)).getD 0) acc,
          true, none) := by
  induction parts generalizing acc with
  | nil => simp [parseSelectionLoop, dedupFirstAux]
  | cons p rest ih =>
    obtain ⟨n, hn, hn1, hn2⟩ := h p (List.mem_cons_self p rest)
    have hval : trimSpace p ≠ [] := by
      intro he
      rw [he] at hn
      simp [atoiOpt] at hn
    simp only [parseSelectionLoop, List.map_cons, hn, Option.getD_some, dedupFirstAux]
    rw [if_neg hval]
    rw [if_neg (by simp only [Bool.or_eq_true, decide_eq_true_eq, not_or]; omega)]
    by_cases hmem : n ∈ acc
    · rw [if_pos hmem, if_pos hmem]
      exact ih acc fun q hq => h q (List.mem_cons_of_mem p hq)
    · rw [if_neg hmem, if_neg hmem]
      exact ih (acc ++ [n]) fun q hq => h q (List.mem_cons_of_mem p hq)

/-- The selection-token loop when, after any run of valid tokens, a blank or
out-of-range token appears: a hard validation failure, no items returned. -/
theorem parseSelectionLoop_stops (limit : Int) (parts1 : List Str) (t : Str)
    (parts2 : List Str) (acc : List Int)
    (h1 : ∀ p ∈ parts1, ∃ n, atoiOpt (trimSpace p) = some n ∧ 1 ≤ n ∧ n ≤ limit)
    (h2 : trimSpace t = [] ∨
      ∃ n, atoiOpt (trimSpace t) = some n ∧ (n < 1 ∨ limit < n)) :
    ∃ msg, parseSelectionLoop limit (parts1 ++ t :: parts2) acc acc
      = ([], true, some msg) := by
  induction parts1 generalizing acc with
  | nil =>
    simp only [List.nil_append, parseSelectionLoop]
    rcases h2 with hblank | ⟨n, hn, hrange⟩
    · rw [if_pos hblank]
      exact ⟨emptySelectionMsg, rfl⟩
    · have hval : trimSpace t ≠ [] := by
        intro he
        rw [he] at hn
        simp [atoiOpt] at hn
      rw [if_neg hval]
      simp only [hn]
      rw [if_pos (by simp only [Bool.or_eq_true, decide_eq_true_eq]; exact hrange)]
      exact ⟨rangeMsg limit, rfl⟩
  | cons p rest ih =>
    obtain ⟨n, hn, hn1, hn2⟩ := h1 p (List.mem_cons_self p rest)
    have hval : trimSpace p ≠ [] := by
      intro he
      rw [he] at hn
      simp [atoiOpt] at hn
    simp only [List.cons_append, parseSelectionLoop, hn]
    rw [if_neg hval]
    rw [if_neg (by simp only [Bool.or_eq_true, decide_eq_true_eq, not_or]; omega)]
    by_cases hmem : n ∈ acc
    · rw [if_pos hmem]
      exact ih acc fun q hq => h1 q (List.mem_cons_of_mem p hq)
    · rw [if_neg hmem]
      exact ih (acc ++ [n]) fun q hq => h1 q (List.mem_cons_of_mem p hq)

/-- The selection-token loop when, after any run of valid tokens, a
non-blank token fails integer parsing: the whole input is not a selection
attempt (falls through to search). -/
theorem parseSelectionLoop_falls (limit : Int) (parts1 : List Str) (t : Str)
    (parts2 : List Str) (acc : List Int)
    (h1 : ∀ p ∈ parts1, ∃ n, atoiOpt (trimSpace p) = some n ∧ 1 ≤ n ∧ n ≤ limit)
    (h2 : trimSpace t ≠ []) (h3 : atoiOpt (trimSpace t) = none) :
    parseSelectionLoop limit (parts1 ++ t :: parts2) acc acc = ([], false, none) := by
  induction parts1 generalizing acc with
  | nil =>
    simp only [List.nil_append, parseSelectionLoop, h3]
    rw [if_neg h2]
  | cons p rest ih =>
    obtain ⟨n, hn, hn1, hn2⟩ := h1 p (List.mem_cons_self p rest)
    have hval : trimSpace p ≠ [] := by
      intro he
      rw [he] at hn
      simp [atoiOpt] at hn
    simp only [List.cons_append, parseSelectionLoop, hn]
    rw [if_neg hval]
    rw [if_neg (by simp only [Bool.or_eq_true, decide_eq_true_eq, not_or]; omega)]
    by_cases hmem : n ∈ acc
    · rw [if_pos hmem]
      exact ih acc fun q hq => h1 q (List.mem_cons_of_mem p hq)
    · rw [if_neg hmem]
      exact ih (acc ++ [n]) fun q hq => h1 q (List.mem_cons_of_mem p hq)

/-- A token with a parsed integer contains a non-white-space character, so
the surrounding input does not trim to empty. -/
theorem trim_input_ne_nil_of_token (input : Str) (sep : Char) (p : Str)
    (hp : p ∈ splitOnChar sep input) (hne : trimSpace p ≠ []) :
    trimSpace input ≠ [] := by
  have hex : ∃ c ∈ p, isSpaceChar c = false := by
    by_contra hall
    push_neg at hall
    refine hne (trimSpace_eq_nil_of p fun c hc => ?_)
    have h := hall c hc
    cases hb : isSpaceChar c
    · exact absurd hb h
    · rfl
  obtain ⟨c, hc, hcs⟩ := hex
  exact trimSpace_ne_nil_of_mem input c (splitOnChar_chars sep input p hp c hc) hcs

/-- C5 counterexample: the claim demands that any input containing an
out-of-range integer token (here `0` with 5 items) be a hard validation
failure, but the scan meets the non-integer token `x` first and the whole
input falls through to search (`ok = false`, no error, no failure). -/
theorem C5_counterexample_scan_order :
    tryParseSelections "x,0".toList 5 = ([], false, none) := by
  decide

/-- C5 as amended: (1) an input whose comma tokens all parse as integers in
`[1, limit]` succeeds and returns the values with duplicates collapsed to
their first occurrence in insertion order; (2) a blank or out-of-range token
is a hard validation failure returning no items, provided every token
before it is a valid in-range integer (the left-to-right scan stops at the
first offending token, so an earlier non-integer token instead turns the
input into a search) and the input is not entirely white space (which is
not a selection attempt at all). -/
theorem C5_amended_selection_parse :
    (∀ (input : Str) (limit : Int),
      (∀ p ∈ splitOnChar ',' input,
        ∃ n, atoiOpt (trimSpace p) = some n ∧ 1 ≤ n ∧ n ≤ limit) →
      tryParseSelections input limit =
        (dedupFirst ((splitOnChar ',' input).map fun p => (atoiOpt (trimSpace p)).getD 0),
          true, none)) ∧
    (∀ (input : Str) (limit : Int) (parts1 : List Str) (t : Str) (parts2 : List Str),
      trimSpace input ≠ [] →
      splitOnChar ',' input = parts1 ++ t :: parts2 →
      (∀ p ∈ parts1, ∃ n, atoiOpt (trimSpace p) = some n ∧ 1 ≤ n ∧ n ≤ limit) →
      (trimSpace t = [] ∨
        ∃ n, atoiOpt (trimSpace t) = some n ∧ (n < 1 ∨ limit < n)) →
      ∃ msg, tryParseSelections input limit = ([], true, some msg)) := by
  constructor
  · intro input limit h
    cases hp : splitOnChar ',' input with
    | nil => exact absurd hp (splitOnChar_ne_nil ',' input)
    | cons p0 rest0 =>
      obtain ⟨n0, hn0, _, _⟩ := h p0 (by rw [hp]; exact List.mem_cons_self _ _)
      have hp0 : trimSpace p0 ≠ [] := by
        intro he
        rw [he] at hn0
        simp [atoiOpt] at hn0
      have hinput : trimSpace input ≠ [] :=
        trim_input_ne_nil_of_token input ',' p0
          (by rw [hp]; exact List.mem_cons_self _ _) hp0
      unfold tryParseSelections
      rw [if_neg hinput]
      simp only [hp]
      rw [if_neg (by simp)]
      rw [parseSelectionLoop_all_valid limit (p0 :: rest0) []
        (by rw [← hp]; exact h)]
      rw [if_neg (by
        simp only [List.map_cons, hn0, Option.getD_some]
        exact dedupFirst_cons_ne_nil n0 _)]
      rfl
  · intro input limit parts1 t parts2 hinput hsplit h1 h2
    unfold tryParseSelections
    rw [if_neg hinput]
    simp only [hsplit]
    rw [if_neg (by simp)]
    exact parseSelectionLoop_stops limit parts1 t parts2 [] h1 h2

/-- Witness for C5: both amended clauses, discharged at items from the
spec's own examples (`1, 2, 2` with 5 items succeeds as `[1,2]`; `1, ` is a
hard validation failure). -/
theorem C5_amended_selection_parse_witness :
    tryParseSelections "1, 2, 2".toList 5 = ([1, 2], true, none) ∧
    (∃ msg, tryParseSelections "1, ".toList 5 = ([], true, some msg)) := by
  constructor
  · have h := C5_amended_selection_parse.1 "1, 2, 2".toList 5 (by
      intro p hp
      fin_cases hp
      · exact ⟨1, by decide, by decide, by decide⟩
      · exact ⟨2, by decide, by decide, by decide⟩
      · exact ⟨2, by decide, by decide, by decide⟩)
    rw [h]
    decide
  · exact C5_amended_selection_parse.2 "1, ".toList 5 ["1".toList] " ".toList []
      (by decide) (by decide)
      (by intro p hp; fin_cases hp; exact ⟨1, by decide, by decide, by decide⟩)
      (Or.inl (by decide))

/-- C6 counterexample: the claim (and the spec's own example) says
`7,a` is not a pure index list and falls through to search, but the loop
scans left to right, meets the out-of-range `7` first (5 items), and
reports a hard validation failure instead. -/
theorem C6_counterexample_range_first :
    promptStep (originalView ['a', 'b', 'c', 'd', 'e'])
      (originalView ['a', 'b', 'c', 'd', 'e'])
      (initKeysLower (fun c => [c]) ['a', 'b', 'c', 'd', 'e'])
      "7,a".toList
      = .rejected (rangeMsg 5) := by
  decide

/-- C6 as amended: an input whose left-to-right token scan reaches a
non-blank token failing integer parsing before any blank or out-of-range
token is never a hard validation failure: the selection parse returns
`ok = false` and the loop treats the input as a search query (inputs such
as `1,a` fall through; `7,a` instead stops at the out-of-range `7`). -/
theorem C6_amended_fallthrough (input : Str) (limit : Int) (parts1 : List Str)
    (t : Str) (parts2 : List Str)
    (hsplit : splitOnChar ',' input = parts1 ++ t :: parts2)
    (h1 : ∀ p ∈ parts1, ∃ n, atoiOpt (trimSpace p) = some n ∧ 1 ≤ n ∧ n ≤ limit)
    (h2 : trimSpace t ≠ [])
    (h3 : atoiOpt (trimSpace t) = none) :
    tryParseSelections input limit = ([], false, none) := by
  have hinput : trimSpace input ≠ [] :=
    trim_input_ne_nil_of_token input ',' t
      (by rw [hsplit]; exact List.mem_append_right parts1 (List.mem_cons_self t parts2)) h2
  unfold tryParseSelections
  rw [if_neg hinput]
  simp only [hsplit]
  rw [if_neg (by simp)]
  exact parseSelectionLoop_falls limit parts1 t parts2 [] h1 h2 h3

/-- Witness for C6 at the spec's example `1,a` with 5 items: the parse
falls through to search. -/
theorem C6_amended_fallthrough_witness :
    tryParseSelections "1,a".toList 5 = ([], false, none) :=
  C6_amended_fallthrough "1,a".toList 5 ["1".toList] "a".toList []
    (by decide)
    (by intro p hp; fin_cases hp; exact ⟨1, by decide, by decide, by decide⟩)
    (by decide) (by decide)

/-- The substring-filter loop keeps the first `limit - filtered.length`
matching items appended to the accumulator and counts all matches. -/
theorem filterViewLoop_eq {T : Type} (needle : Str) (limit : Nat)
    (pairs : List (ViewItem T × Str)) (filtered : List (ViewItem T)) (total : Nat)
    (h : filtered.length ≤ limit) :
    filterViewLoop needle limit pairs filtered total =
      (filtered ++
        (((pairs.filter fun pk => containsStr pk.2 needle).map Prod.fst).take
          (limit - filtered.length)),
       total + (pairs.filter fun pk => containsStr pk.2 needle).length) := by
  induction pairs generalizing filtered total with
  | nil => simp [filterViewLoop]
  | cons pk rest ih =>
    obtain ⟨item, key⟩ := pk
    by_cases hc : containsStr key needle = true
    · by_cases hlt : filtered.length < limit
      · simp only [filterViewLoop, hc, if_true, if_pos hlt]
        rw [ih (filtered ++ [item]) (total + 1) (by simp; omega)]
        have htake : limit - filtered.length = (limit - (filtered.length + 1)) + 1 := by
          omega
        simp only [List.filter_cons, hc, if_true, List.map_cons, htake,
          List.take_succ_cons, List.length_append, List.length_cons,
          List.length_nil, List.append_assoc, List.singleton_append,
          List.length_singleton, Prod.mk.injEq]
        exact ⟨trivial, by omega⟩
      · have hlen : filtered.length = limit := by omega
        simp only [filterViewLoop, hc, if_true, if_neg hlt]
        rw [ih filtered (total + 1) h]
        simp only [List.filter_cons, hc, if_true, List.length_cons, hlen,
          Nat.sub_self, List.take_zero, List.append_nil, Prod.mk.injEq]
        exact ⟨trivial, by omega⟩
    · have hc2 : containsStr key needle = false := by
        cases hb : containsStr key needle
        · rfl
        · exact absurd hb hc
      simp only [filterViewLoop, hc2, Bool.false_eq_true, if_false]
      rw [ih filtered total h]
      simp only [List.filter_cons, hc2, Bool.false_eq_true, if_false]

/-- `filterViewBySubstring` on a non-empty needle: the first `limit`
matching items, in order, and the total match count over the whole list. -/
theorem filterViewBySubstring_eq {T : Type} (all : List (ViewItem T))
    (lowerKeys : List Str) (needle : Str) (limit : Nat) (h : needle ≠ []) :
    filterViewBySubstring all lowerKeys needle limit =
      ((((all.zip lowerKeys).filter fun pk => containsStr pk.2 needle).map Prod.fst).take limit,
       ((all.zip lowerKeys).filter fun pk => containsStr pk.2 needle).length) := by
  unfold filterViewBySubstring
  rw [if_neg h, filterViewLoop_eq needle limit _ [] 0 (by simp)]
  simp

/-- A key matching the needle forces at least one match in the zipped view
(the view and the key list have equal length). -/
theorem zip_filter_ne_nil_of_any {T : Type} (items : List (ViewItem T))
    (keys : List Str) (f : Str → Bool) (hlen : items.length = keys.length)
    (h : keys.any f = true) :
    (items.zip keys).filter (fun pk => f pk.2) ≠ [] := by
  induction keys generalizing items with
  | nil => simp at h
  | cons k krest ih =>
    cases items with
    | nil => simp at hlen
    | cons x xrest =>
      have hlen2 : xrest.length = krest.length := by
        simp only [List.length_cons] at hlen
        omega
      simp only [List.zip_cons_cons, List.filter_cons]
      by_cases hf : f k = true
      · simp [hf]
      · have hany : krest.any f = true := by
          simp only [List.any_cons, Bool.or_eq_true] at h
          rcases h with h | h
          · exact absurd h hf
          · exact h
        simp only [hf, Bool.false_eq_true, if_false]
        exact ih xrest hlen2 hany

/-- C7: one loop turn whose input reaches the substring-search branch (not
empty, not quit, not reset, selection parse fell through) and matches at
least one precomputed key is evaluated against the original collection's
keys — the current narrowed view does not occur in the outcome at all — and
yields the first 20 matching items in original order together with the
total match count over the whole original collection. -/
theorem C7_search_uses_original_view {T : Type} (items : List T)
    (keyFunc : T → Str) (current : List (ViewItem T)) (raw : Str)
    (hne : trimInput raw ≠ [])
    (hq : strToLower (trimInput raw) ≠ "q".toList)
    (hquit : strToLower (trimInput raw) ≠ "quit".toList)
    (hall : strToLower (trimInput raw) ≠ "all".toList)
    (hstar : strToLower (trimInput raw) ≠ "*".toList)
    (hsel : (tryParseSelections (trimInput raw) (current.length : Int)).2.1 = false)
    (hmatch : (initKeysLower keyFunc items).any
      (fun k => containsStr k (strToLower (trimInput raw))) = true) :
    promptStep (originalView items) current (initKeysLower keyFunc items) raw =
      .searched
        (((((originalView items).zip (initKeysLower keyFunc items)).filter
            fun pk => containsStr pk.2 (strToLower (trimInput raw))).map Prod.fst).take 20)
        (((originalView items).zip (initKeysLower keyFunc items)).filter
          fun pk => containsStr pk.2 (strToLower (trimInput raw))).length := by
  have hlen : (originalView items).length = (initKeysLower keyFunc items).length := by
    simp [originalView, initKeysLower, List.enum_length]
  have hmatches : ((originalView items).zip (initKeysLower keyFunc items)).filter
      (fun pk => containsStr pk.2 (strToLower (trimInput raw))) ≠ [] :=
    zip_filter_ne_nil_of_any _ _ _ hlen hmatch
  unfold promptStep
  rw [if_neg hne]
  rw [if_neg (by
    simp only [Bool.or_eq_true, decide_eq_true_eq, not_or]
    exact ⟨hq, hquit⟩)]
  rw [if_neg (by
    simp only [Bool.or_eq_true, decide_eq_true_eq, not_or]
    exact ⟨hall, hstar⟩)]
  rcases htp : tryParseSelections (trimInput raw) (current.length : Int) with
    ⟨sels, ok, err⟩
  rw [htp] at hsel
  simp only at hsel
  subst hsel
  simp only
  rw [filterViewBySubstring_eq _ _ _ _ (by
    intro hnil
    exact hne (by simpa [strToLower] using hnil))]
  simp only
  rw [if_pos (by
    simp only [List.length_pos]
    exact hmatches)]

/-- Witness for C7: searching `AL` (mixed case) over `alpha`/`beta` with an
arbitrary (here empty) narrowed view yields the single original match and a
total of 1. -/
theorem C7_search_uses_original_view_witness :
    promptStep (originalView ["alpha".toList, "beta".toList]) []
      (initKeysLower id ["alpha".toList, "beta".toList]) "AL".toList
      = .searched [⟨0, "alpha".toList⟩] 1 := by
  rw [C7_search_uses_original_view ["alpha".toList, "beta".toList] id []
    "AL".toList (by decide) (by decide) (by decide) (by decide) (by decide)
    (by decide) (by decide)]
  decide

/-- Every digit character is a digit, not white space, its own lower-case
form, and none of the sign or unit letters. -/
theorem digitChar_facts (c : Char) (h : c ∈ digitChars) :
    c.isDigit = true ∧ isSpaceChar c = false ∧ c.toLower = c ∧
      c ≠ '-' ∧ c ≠ '+' ∧ c ≠ 'h' ∧ c ≠ 'm' := by
  rw [show digitChars = ['0','1','2','3','4','5','6','7','8','9'] from rfl] at h
  simp only [List.mem_cons, List.not_mem_nil, or_false] at h
  rcases h with h | h | h | h | h | h | h | h | h | h <;> subst h <;> decide

/-- Scanning an all-digit string yields exactly its decimal value. -/
theorem sscanfInt_of_digits (s : Str) (hne : s ≠ [])
    (h : ∀ c ∈ s, c ∈ digitChars) :
    sscanfInt s = some ((digitsToNat s : Int)) := by
  have hns : ∀ c ∈ s, isSpaceChar c = false :=
    fun c hc => (digitChar_facts c (h c hc)).2.1
  have hdig : ∀ c ∈ s, c.isDigit = true :=
    fun c hc => (digitChar_facts c (h c hc)).1
  unfold sscanfInt
  rw [dropWhile_eq_self_of _ _ hns]
  cases s with
  | nil => exact absurd rfl hne
  | cons c rest =>
    have hcd := digitChar_facts c (h c (List.mem_cons_self c rest))
    simp only
    rw [if_neg hcd.2.2.2.1, if_neg hcd.2.2.2.2.1,
      takeWhile_eq_self_of _ _ hdig]
    rw [if_neg (by simp)]

/-- An all-digit string contains no `h`/`m` unit letter, even after
lower-casing. -/
theorem noUnit_of_digits (s : Str) (h : ∀ c ∈ s, c ∈ digitChars) :
    ((strToLower s).any fun c => c = 'h' || c = 'm') = false := by
  cases hb : (strToLower s).any fun c => c = 'h' || c = 'm' with
  | false => rfl
  | true =>
    obtain ⟨x, hx, hfx⟩ := List.any_eq_true.mp hb
    obtain ⟨d, hd, hdx⟩ := List.mem_map.mp hx
    have hf := digitChar_facts d (h d hd)
    rw [← hdx, hf.2.2.1] at hfx
    simp only [Bool.or_eq_true, decide_eq_true_eq] at hfx
    rcases hfx with h1 | h1
    · exact absurd h1 hf.2.2.2.2.2.1
    · exact absurd h1 hf.2.2.2.2.2.2

/-- C8 counterexample: the claim calls every unit-less non-plain-integer
string a parse failure, but `3x` (unit-less, not a plain integer) parses
successfully as 180 minutes because `fmt.Sscanf` reads the leading `3` and
ignores the trailing junk. -/
theorem C8_counterexample_trailing_junk :
    parseDuration "3x".toList = .ok 180 := by
  decide

/-- C8 as amended: for unit-less input, (1) a plain decimal-digit string
with positive value n parses as n*60 minutes (legacy whole-hours
shorthand); (2) the parse fails exactly when the Sscanf-style leading
integer scan of the trimmed input yields no positive value — so a unit-less
string with a positive leading integer but trailing junk (e.g. `3x`) is
accepted as its leading integer in hours rather than rejected. -/
theorem C8_amended_unitless_parse :
    (∀ (s : Str) (n : Nat), s ≠ [] → (∀ c ∈ s, c ∈ digitChars) →
      digitsToNat s = n → 0 < n →
      parseDuration s = .ok ((n : Int) * 60)) ∧
    (∀ s : Str, trimSpace s ≠ [] →
      ((strToLower (trimSpace s)).any fun c => c = 'h' || c = 'm') = false →
      parseAsNumber (trimSpace s) ≤ 0 →
      parseDuration s = .error "invalid duration format".toList) := by
  constructor
  · intro s n hne h hval hpos
    have hns : ∀ c ∈ s, isSpaceChar c = false :=
      fun c hc => (digitChar_facts c (h c hc)).2.1
    have htrim : trimSpace s = s := trimSpace_eq_self_of s hns
    unfold parseDuration
    rw [htrim, if_neg hne]
    rw [if_pos (by rw [noUnit_of_digits s h]; simp)]
    have hnum : parseAsNumber s = (n : Int) := by
      unfold parseAsNumber
      rw [sscanfInt_of_digits s hne h, hval]
      rfl
    rw [hnum, if_pos (by exact_mod_cast hpos)]
  · intro s h1 h2 h3
    unfold parseDuration
    rw [if_neg h1]
    rw [if_pos (by rw [h2]; simp)]
    rw [if_neg (by omega)]

/-- Witness for C8: both amended clauses, discharged at `3` (yields 180)
and at `abc` (fails). -/
theorem C8_amended_unitless_parse_witness :
    parseDuration "3".toList = .ok ((3 : Nat) * 60 : Int) ∧
    parseDuration "abc".toList = .error "invalid duration format".toList :=
  ⟨C8_amended_unitless_parse.1 "3".toList 3 (by decide) (by decide) (by decide)
      (by decide),
   C8_amended_unitless_parse.2 "abc".toList (by decide) (by decide) (by decide)⟩

/-- Fidelity of the embedding to the repository's own
`TestTryParseSelections` (internal/cli/prompt_test.go). -/
theorem tryParseSelections_matches_repo_tests :
    tryParseSelections "1,2,3".toList 5 = ([1, 2, 3], true, none) ∧
    tryParseSelections "1, 2, 2".toList 5 = ([1, 2], true, none) ∧
    tryParseSelections "1,a".toList 5 = ([], false, none) ∧
    tryParseSelections "7".toList 5 = ([], true, some (rangeMsg 5)) ∧
    tryParseSelections "1, ".toList 5 = ([], true, some emptySelectionMsg) ∧
    tryParseSelections "".toList 5 = ([], false, none) :=
  ⟨by decide, by decide, by decide, by decide, by decide, by decide⟩

/-- Fidelity of the embedding to the repository's own `TestParseDuration`
(internal/cli/duration_test.go). -/
theorem parseDuration_matches_repo_tests :
    parseDuration "1h".toList = .ok 60 ∧
    parseDuration "2h".toList = .ok 120 ∧
    parseDuration "30m".toList = .ok 30 ∧
    parseDuration "1.5h".toList = .ok 90 ∧
    parseDuration "2h30m".toList = .ok 150 ∧
    parseDuration "1".toList = .ok 60 ∧
    parseDuration "8h".toList = .ok 480 ∧
    parseDuration "45M".toList = .ok 45 ∧
    parseDuration "1H30M".toList = .ok 90 ∧
    parseDuration "abc".toList = .error "invalid duration format".toList := by
  decide

/-- Fidelity of the embedding to the repository's own scope-utility tests
(pkg/azpim/scopeutil_test.go). -/
theorem scope_utilities_match_repo_tests :
    managementGroupIDFromScope
        "/providers/Microsoft.Management/managementGroups/root/providers/foo".toList
      = "root".toList ∧
    managementGroupIDFromScope "/subscriptions/123".toList = [] ∧
    subscriptionIDFromScope "/subscriptions/abcd/resourceGroups/my-rg".toList
      = "abcd".toList ∧
    subscriptionIDFromScope
        "/providers/Microsoft.Management/managementGroups/root".toList = [] ∧
    resourceGroupNameFromScope
        "/subscriptions/abcd/resourceGroups/test-rg/providers/foo".toList
      = ("abcd".toList, "test-rg".toList) ∧
    resourceGroupNameFromScope "/subscriptions/abcd".toList = ([], []) := by
  decide

/-- Fidelity of the embedding to the repository's own
`TestFilterViewBySubstring` (internal/cli/prompt_test.go). -/
theorem filterViewBySubstring_matches_repo_tests :
    filterViewBySubstring
        [⟨0, "S001"⟩, ⟨1, "S002"⟩, ⟨2, "S101"⟩, ⟨3, "A200"⟩]
        ["s001-alpha".toList, "s002-beta".toList, "s101-gamma".toList, "a200".toList]
        "s00".toList 10
      = ([⟨0, "S001"⟩, ⟨1, "S002"⟩], 2) ∧
    filterViewBySubstring
        [⟨0, "S001"⟩, ⟨1, "S002"⟩, ⟨2, "S101"⟩, ⟨3, "A200"⟩]
        ["s001-alpha".toList, "s002-beta".toList, "s101-gamma".toList, "a200".toList]
        "s1".toList 1
      = ([⟨2, "S101"⟩], 1) := by
  decide

end Pim
